import Mathlib

/-!
# sgx-rand (enclave-vrf): a shallow embedding of `src/sgx-rand/rand.go`

The development models the per-hash VRF cache (`/blockhash`, `/vrf`,
`clearOldBlockHash`), the key-intake route (`/key`), the report check
(`verifyReport`) and the peer handshake (`verifyPeerAndSendKey`).

Conventions of the embedding:
* a Go `[]byte` is a `List Nat` (its contents; capacity equals length);
* a Go `map[string]V` is a function `String → Option V`; reading a missing key
  gives the zero value of `V`, as in Go;
* `uint64` values are naturals, wrap-around is written `% 2^64` explicitly;
* calls into libraries that are not part of the repository (the VRF prover, the
  curve, the enclave runtime, SHA-256, X.509) are fields of `Platform`.
-/

namespace SgxRand

/-- A Go byte slice, by contents. -/
abbrev Bytes := List Nat

/-! ## encoding/hex -/

/-- One digit of the table `0123456789abcdef` used by `hex.EncodeToString`. -/
def hexDigit (n : Nat) : Char :=
  if n < 10 then Char.ofNat (48 + n) else Char.ofNat (87 + n)

/-- The two output characters of each byte, `hextable[b>>4]`, `hextable[b&0x0f]`. -/
def hexEncodeChars : Bytes → List Char
  | [] => []
  | b :: bs => hexDigit (b / 16 % 16) :: hexDigit (b % 16) :: hexEncodeChars bs

/-- Go `hex.EncodeToString`. -/
def hexEncodeToString (b : Bytes) : String :=
  String.mk (hexEncodeChars b)

/-- Go `fromHexChar`: the value of a hexadecimal digit, either case. -/
def fromHexChar (c : Char) : Option Nat :=
  let n := c.toNat
  if 48 ≤ n ∧ n ≤ 57 then some (n - 48)
  else if 97 ≤ n ∧ n ≤ 102 then some (n - 87)
  else if 65 ≤ n ∧ n ≤ 70 then some (n - 55)
  else none

/-- Pairwise decoding of `hex.Decode`; `none` stands for a returned error
(`InvalidByteError` or `ErrLength`). -/
def hexDecodeChars : List Char → Option Bytes
  | [] => some []
  | [_] => none
  | a :: b :: rest =>
    match fromHexChar a, fromHexChar b, hexDecodeChars rest with
    | some x, some y, some r => some ((x * 16 + y) :: r)
    | _, _, _ => none

/-- Go `hex.DecodeString`; `none` is `err != nil`. -/
def hexDecodeString (s : String) : Option Bytes :=
  hexDecodeChars s.data

/-! ## Go maps keyed by strings -/

/-- A Go `map[string]V`. -/
abbrev GoMap (V : Type) := String → Option V

/-- The map made by `make(map[string]V)`. -/
def GoMap.empty {V : Type} : GoMap V := fun _ => none

/-- The assignment `m[k] = v`. -/
def GoMap.set {V : Type} (m : GoMap V) (k : String) (v : V) : GoMap V :=
  fun x => if x = k then some v else m x

/-- The statement `delete(m, k)`. -/
def GoMap.delete {V : Type} (m : GoMap V) (k : String) : GoMap V :=
  fun x => if x = k then none else m x

/-- The read `m[k]` of a `map[string]uint64`: `0` when the key is missing. -/
def GoMap.getU64 (m : GoMap Nat) (k : String) : Nat := (m k).getD 0

/-- The read `m[k]` of a `map[string][]byte`: `nil` when the key is missing. -/
def GoMap.getBytes (m : GoMap Bytes) (k : String) : Bytes := (m k).getD []

/-! ## External primitives -/

/-- The fields of `attestation.Report` that `verifyReport` reads. -/
structure Report where
  Data : Bytes
  SecurityVersion : Nat
  Debug : Bool
  UniqueID : Bytes
  SignerID : Bytes
  ProductID : Bytes
deriving DecidableEq, Repr

/-- A handle on a `*secp256k1.PrivateKey` that is not nil. -/
abbrev PrivateKey := Nat

/-- Library calls the program makes; none of them is part of the repository. -/
structure Platform where
  /-- The private key of `secp256k1.PrivKeyFromBytes(secp256k1.S256(), b)`. -/
  PrivKeyFromBytes : Bytes → PrivateKey
  /-- The compressed serialisation of the public key of a private key. -/
  SerializeCompressed : PrivateKey → Bytes
  /-- The method `(*PrivateKey).Serialize`. -/
  Serialize : PrivateKey → Bytes
  /-- The call `vrf.NewSecp256k1Sha256Tai().Prove`, giving `(beta, pi)`; `none` is `err != nil`. -/
  Prove : PrivateKey → Bytes → Option (Bytes × Bytes)
  /-- The call `enclave.VerifyRemoteReport`. -/
  VerifyRemoteReport : Bytes → Except String Report
  /-- The call `sha256.Sum256`. -/
  Sum256 : Bytes → Bytes
  /-- Whether `x509.ParseCertificate` returns a certificate for these bytes. -/
  ParseCertificate : Bytes → Bool
  /-- The call `ecrypto.SealWithProductKey(b, nil)`; `none` is `err != nil`. -/
  SealWithProductKey : Bytes → Option Bytes

/-! ## The clock -/

/-- Go `getTimestampFromTSC`: `uint64(time.Now().Unix())`, where `unix` is the
`int64` reading of the clock. -/
def getTimestampFromTSC (unix : Int) : Nat :=
  (unix % 18446744073709551616).toNat

/-! ## The VRF cache -/

/-- The globals `blockHash2Beta`, `blockHash2PI`, `blockHash2Timestamp`, `blockHashSet`. -/
structure Cache where
  blockHash2Beta : GoMap Bytes
  blockHash2PI : GoMap Bytes
  blockHash2Timestamp : GoMap Nat
  blockHashSet : List String

/-- The cache at program start. -/
def Cache.empty : Cache :=
  { blockHash2Beta := GoMap.empty, blockHash2PI := GoMap.empty,
    blockHash2Timestamp := GoMap.empty, blockHashSet := [] }

/-- The globals `vrfPubkey` and `vrfPrivKey` (a pointer, `none` when nil). -/
structure Keys where
  vrfPubkey : Bytes
  vrfPrivKey : Option PrivateKey
deriving DecidableEq, Repr

/-- Go `const blockHashEntryMax = 1000_000`. -/
def blockHashEntryMax : Nat := 1000000

/-- Go `clearOldBlockHash`. The constant `blockHashEntryMax*1.5` is the integer
`1500000`, written here `blockHashEntryMax * 3 / 2`. The new window `tmpSet` is
made with `nums-blockHashEntryMax` slots, all `""`; `copy` fills as many of them
as the source `blockHashSet[nums-blockHashEntryMax:]` has entries, from the front,
and the slots it does not reach stay `""`. -/
def clearOldBlockHash (c : Cache) : Cache :=
  let nums := c.blockHashSet.length
  if nums > blockHashEntryMax * 3 / 2 then
    let old := c.blockHashSet.take (nums - blockHashEntryMax)
    let src := c.blockHashSet.drop (nums - blockHashEntryMax)
    { blockHash2Timestamp := old.foldl GoMap.delete c.blockHash2Timestamp
      blockHash2PI := old.foldl GoMap.delete c.blockHash2PI
      blockHash2Beta := old.foldl GoMap.delete c.blockHash2Beta
      blockHashSet :=
        src.take (nums - blockHashEntryMax) ++
          List.replicate (nums - blockHashEntryMax - src.length) "" }
  else c

/-- The handler of `/blockhash`. `b` is `r.URL.Query()["b"]`, `unix` the clock
reading. The second component lists the inputs on which `Prove` was called. A nil
`vrfPrivKey` makes `Prove` dereference nil; the server recovers the panic of a
handler, so the request ends there with the cache as it was. -/
def blockhashHandler (P : Platform) (k : Keys) (unix : Int) (b : List String)
    (c : Cache) : Cache × List Bytes :=
  if k.vrfPubkey.length = 0 then (c, [])
  else
    match b with
    | [] => (c, [])
    | blkHash :: _ =>
      if c.blockHash2Timestamp.getU64 blkHash ≠ 0 then (c, [])
      else
        match hexDecodeString blkHash with
        | none => (c, [])
        | some hashBytes =>
          match k.vrfPrivKey with
          | none => (c, [hashBytes])
          | some priv =>
            match P.Prove priv hashBytes with
            | none => (c, [hashBytes])
            | some (beta, pi) =>
              (clearOldBlockHash
                { blockHash2Beta := c.blockHash2Beta.set blkHash beta
                  blockHash2PI := c.blockHash2PI.set blkHash pi
                  blockHash2Timestamp :=
                    c.blockHash2Timestamp.set blkHash (getTimestampFromTSC unix)
                  blockHashSet := c.blockHashSet ++ [blkHash] },
               [hashBytes])

/-- Go `type vrfResult struct { PI string; Beta string }`. -/
structure vrfResult where
  PI : String
  Beta : String
deriving DecidableEq, Repr

/-- Go `json.Marshal` of a `vrfResult` whose fields hold hexadecimal digits only
(no character of them is escaped). -/
def jsonMarshal (r : vrfResult) : String :=
  "\x7b\"PI\":\"" ++ r.PI ++ "\",\"Beta\":\"" ++ r.Beta ++ "\"\x7d"

/-- The handler of `/vrf`; the result is the response body, `""` when nothing is
written. -/
def vrfHandler (unix : Int) (b : List String) (c : Cache) : String :=
  match b with
  | [] => ""
  | blkHash :: _ =>
    let vrfTimestamp := c.blockHash2Timestamp.getU64 blkHash
    if vrfTimestamp = 0 then ""
    else if (vrfTimestamp + 5) % 18446744073709551616 > getTimestampFromTSC unix then ""
    else
      jsonMarshal
        { PI := hexEncodeToString (c.blockHash2PI.getBytes blkHash)
          Beta := hexEncodeToString (c.blockHash2Beta.getBytes blkHash) }

/-- One `/blockhash` request: the keys held when it runs, the clock reading and
the values of the query parameter `b`. -/
structure Submission where
  keys : Keys
  unix : Int
  b : List String

/-- The cache after a sequence of `/blockhash` requests, oldest first. -/
def runSubmissions (P : Platform) (subs : List Submission) (c : Cache) : Cache :=
  subs.foldl (fun acc s => (blockhashHandler P s.keys s.unix s.b acc).1) c

/-! ## The report check -/

/-- How a call of `verifyReport` ends: `return nil`, `return err`, or a run-time
panic (a slice bound or an index out of range). -/
inductive VerifyResult where
  | ok : VerifyResult
  | err : String → VerifyResult
  | panicked : VerifyResult
deriving DecidableEq, Repr

/-- Go `binary.LittleEndian.Uint16(b)`, that is `uint16(b[0]) | uint16(b[1])<<8`;
`none` is the index-out-of-range panic of `b[1]` on a slice shorter than two. -/
def littleEndianUint16 : Bytes → Option Nat
  | b0 :: b1 :: _ => some ((b0 ||| (b1 <<< 8)) % 65536)
  | _ => none

/-- The slice expression `report.Data[:len(hash)]`, where `hash` is a `[32]byte`;
`none` is the slice-bounds panic. -/
def reportDataDigest (r : Report) : Option Bytes :=
  if r.Data.length < 32 then none else some (r.Data.take 32)

/-- Go `verifyReport`. -/
def verifyReport (P : Platform) (reportBytes certBytes signer uniqID : Bytes) :
    VerifyResult :=
  match P.VerifyRemoteReport reportBytes with
  | .error e => .err e
  | .ok report =>
    let hash := P.Sum256 certBytes
    match reportDataDigest report with
    | none => .panicked
    | some digest =>
      if digest ≠ hash then .err "report data does not match the certificate\x27s hash"
      else if report.UniqueID ≠ uniqID then .err "invalid unique id"
      else if report.SecurityVersion < 2 then .err "invalid security version"
      else
        match littleEndianUint16 report.ProductID with
        | none => .panicked
        | some productID =>
          if productID ≠ 1 then .err "invalid product"
          else if report.SignerID ≠ signer then .err "invalid signer"
          else if report.Debug then .err "should not open debug"
          else .ok

/-! ## The key store and the `/key` route -/

/-- The state a `/key` request can touch: the role flag, the key globals and the
contents of the file `keyFile` (`none` when the file does not exist). -/
structure Node where
  isMaster : Bool
  keys : Keys
  keyFile : Option Bytes
deriving DecidableEq, Repr

/-- What a key operation did: the node afterwards, the contents handed to
`os.WriteFile(keyFile, ·, 0600)` in order, and whether it ended in a panic. -/
structure KeyEffect where
  node : Node
  writes : List Bytes
  panicked : Bool
deriving DecidableEq, Repr

/-- Go `sealKeyToFile`. `writeOk` tells whether `os.WriteFile` succeeds; a failed
write is taken to leave the file as it was. -/
def sealKeyToFile (P : Platform) (writeOk : Bool) (n : Node) : KeyEffect :=
  match n.keys.vrfPrivKey with
  | none => { node := n, writes := [], panicked := true }
  | some priv =>
    match P.SealWithProductKey (P.Serialize priv) with
    | none => { node := n, writes := [], panicked := true }
    | some out =>
      if writeOk then
        { node := { n with keyFile := some out }, writes := [out], panicked := false }
      else { node := n, writes := [out], panicked := true }

/-- The handler of `/key`; `k` is `r.URL.Query()["k"]`. -/
def keyHandler (P : Platform) (writeOk : Bool) (k : List String) (n : Node) : KeyEffect :=
  if n.keys.vrfPubkey.length ≠ 0 then { node := n, writes := [], panicked := false }
  else
    match k with
    | [] => { node := n, writes := [], panicked := false }
    | key :: _ =>
      match hexDecodeString key with
      | none => { node := n, writes := [], panicked := false }
      | some keyBytes =>
        let priv := P.PrivKeyFromBytes keyBytes
        sealKeyToFile P writeOk
          { n with keys := { vrfPrivKey := some priv
                             vrfPubkey := P.SerializeCompressed priv } }

/-- A request to `/key`: the handler is registered only under `if !isMaster`, on a
master the route does not exist and nothing runs. -/
def keyRoute (P : Platform) (writeOk : Bool) (k : List String) (n : Node) : KeyEffect :=
  if n.isMaster then { node := n, writes := [], panicked := false }
  else keyHandler P writeOk k n

/-! ## The peer handshake -/

/-- The two `tls.Config` values the handshake builds. -/
inductive TLSConfig where
  | insecureSkipVerify : TLSConfig
  | pinned : Bytes → String → TLSConfig
deriving DecidableEq, Repr

/-- One call `httpGet(tlsConfig, url)`. -/
structure HttpGet where
  tlsConfig : TLSConfig
  url : String
deriving DecidableEq, Repr

/-- Go `const serverName`. -/
def serverName : String := "SGX-VRF-PUBKEY"

/-- How a piece of start-up code ends. -/
inductive Exit where
  | returned : Exit
  | panicked : Exit
deriving DecidableEq, Repr

/-- The loop `for len(certStr) == 0 { ... }` of `verifyPeerAndSendKey`.
`responses i` is what the two `httpGet` calls of round `i` give back (the bodies
of `/cert` and `/peer-report`, `""` for a failed request). The loop runs at most
`fuel` rounds; `none` means it is still polling. The result is `(certStr,
reportStr)` at loop exit. -/
def pollPeer (responses : Nat → String × String) :
    Nat → Nat → String → String → Option (String × String)
  | 0, _, certStr, reportStr =>
    if certStr.length = 0 then none else some (certStr, reportStr)
  | fuel + 1, i, certStr, reportStr =>
    if certStr.length = 0 then
      pollPeer responses fuel (i + 1) (responses i).1 (responses i).2
    else some (certStr, reportStr)

/-- The part of `verifyPeerAndSendKey` after the loop: both strings are decoded,
the report is checked, and a master that holds a public key sends its private
key. The list holds the `httpGet` calls made here. `AddCert` panics on the nil
certificate of a failed `x509.ParseCertificate`, `Serialize` on a nil key. -/
def verifyAndSendKey (P : Platform) (isMaster : Bool) (signer : Bytes) (k : Keys)
    (peerAddress : String) (uniqID : Bytes) (certStr reportStr : String) :
    Exit × List HttpGet :=
  let url := "https://" ++ peerAddress
  match hexDecodeString certStr with
  | none => (.panicked, [])
  | some certBytes =>
    match hexDecodeString reportStr with
    | none => (.panicked, [])
    | some reportBytes =>
      match verifyReport P reportBytes certBytes signer uniqID with
      | .ok =>
        if isMaster ∧ k.vrfPubkey.length ≠ 0 then
          if P.ParseCertificate certBytes then
            match k.vrfPrivKey with
            | none => (.panicked, [])
            | some priv =>
              (.returned,
                [{ tlsConfig := .pinned certBytes serverName
                   url := url ++ "/key?k=" ++ hexEncodeToString (P.Serialize priv) }])
          else (.panicked, [])
        else (.returned, [])
      | _ => (.panicked, [])

/-- Go `verifyPeerAndSendKey`, with at most `fuel` polling rounds; `none` means
the loop has not ended within them. -/
def verifyPeerAndSendKey (P : Platform) (isMaster : Bool) (signer : Bytes) (k : Keys)
    (peerAddress : String) (uniqID : Bytes) (responses : Nat → String × String)
    (fuel : Nat) : Option (Exit × List HttpGet) :=
  match pollPeer responses fuel 0 "" "" with
  | none => none
  | some (certStr, reportStr) =>
    some (verifyAndSendKey P isMaster signer k peerAddress uniqID certStr reportStr)

/-! ## A concrete platform for evaluation -/

/-- A small stand-in for the libraries: keys are big-endian numbers, a report is
its own user data, a certificate is whatever starts with the DER tag `0x30`. -/
def testPlatform : Platform :=
  { PrivKeyFromBytes := fun b => b.foldl (fun acc x => acc * 256 + x) 0
    SerializeCompressed := fun d => [2, d % 256]
    Serialize := fun d => [d / 256 % 256, d % 256]
    Prove := fun d m => some (d % 256 :: m, m ++ [d % 256])
    VerifyRemoteReport := fun b =>
      if b.length < 32 then .error "short report"
      else .ok { Data := b, SecurityVersion := 2, Debug := false, UniqueID := [7],
                 SignerID := [9], ProductID := [1, 0] }
    Sum256 := fun b => List.replicate 32 (b.sum % 256)
    ParseCertificate := fun b => b.head? = some 48
    SealWithProductKey := fun b => some (b.reverse) }

/-- Keys as a master holds them after `generateVRFPrivateKey`. -/
def testKeys : Keys := { vrfPubkey := [2, 5], vrfPrivKey := some 5 }

/-- A slave that holds `testKeys`, sealed in its key file. -/
def keyedSlave : Node :=
  { isMaster := false, keys := testKeys, keyFile := some [5, 0] }

/-- The check `verifyPeerAndSendKey` runs on what the loop retrieved: both strings
decode from hex and `verifyReport` returns nil. -/
def peerVerified (P : Platform) (signer uniqID : Bytes) (certStr reportStr : String) : Bool :=
  match hexDecodeString certStr, hexDecodeString reportStr with
  | some certBytes, some reportBytes =>
    decide (verifyReport P reportBytes certBytes signer uniqID = .ok)
  | _, _ => false

/-- The `/key` request of `verifyPeerAndSendKey`. -/
def keyRequest (P : Platform) (peerAddress : String) (certBytes : Bytes)
    (priv : PrivateKey) : HttpGet :=
  { tlsConfig := .pinned certBytes serverName
    url := "https://" ++ peerAddress ++ "/key?k=" ++ hexEncodeToString (P.Serialize priv) }

/-- A peer whose `/cert` answers at once while its `/peer-report` request fails. -/
def certOnlyPeer : Nat → String × String := fun _ => ("3082", "")

/-- A report that `testPlatform` accepts and that is bound to the bytes `[170]`. -/
def boundReportHex : String := hexEncodeToString (List.replicate 32 170)

/-- A report that `testPlatform` accepts and that is bound to the bytes `[48]`. -/
def derReportHex : String := hexEncodeToString (List.replicate 32 48)

/-- The cache after one accepted submission of `aa` at clock reading `unix`. -/
def cacheAfter (unix : Int) : Cache :=
  (blockhashHandler testPlatform testKeys unix ["aa"] Cache.empty).1

/-- The cache as the `/blockhash` handler has it when it calls `clearOldBlockHash`:
the record of `blkHash` is written and `blkHash` is appended to the window. -/
def Cache.withRecord (c : Cache) (blkHash : String) (beta pi : Bytes) (t : Nat) : Cache :=
  { blockHash2Beta := c.blockHash2Beta.set blkHash beta
    blockHash2PI := c.blockHash2PI.set blkHash pi
    blockHash2Timestamp := c.blockHash2Timestamp.set blkHash t
    blockHashSet := c.blockHashSet ++ [blkHash] }

/-- The three bytes of `i`, most significant first. -/
def bytesOf (i : Nat) : Bytes := [i / 65536 % 256, i / 256 % 256, i % 256]

/-- The block hash number `i`: six hexadecimal digits. -/
def hashOf (i : Nat) : String := hexEncodeToString (bytesOf i)

/-- The request `/blockhash?b=<hashOf i>` on a node holding `testKeys`, at clock
reading 100. -/
def distinctSubmission (i : Nat) : Submission :=
  { keys := testKeys, unix := 100, b := [hashOf i] }

/-- The requests for the hashes number `0` to `n - 1`, in this order. -/
def distinctSubmissions (n : Nat) : List Submission :=
  (List.range n).map distinctSubmission

/-- The cache of the 1,500,001st of these requests at its call of
`clearOldBlockHash`: 1,500,000 hashes are recorded and the hash number 1,500,000
has just been written and appended. -/
def cacheBeforeEviction : Cache :=
  (runSubmissions testPlatform (distinctSubmissions 1500000) Cache.empty).withRecord
    (hashOf 1500000) (5 :: bytesOf 1500000) (bytesOf 1500000 ++ [5]) 100

end SgxRand

namespace SgxRand

/-! ## Maps and the clock -/

theorem GoMap.foldl_delete_apply {V : Type} (l : List String) (m : GoMap V) (k : String) :
    (l.foldl GoMap.delete m) k = if k ∈ l then none else m k := by
  induction l generalizing m with
  | nil => simp
  | cons a l ih =>
    rw [List.foldl_cons, ih]
    by_cases hk : k ∈ l
    · simp [hk]
    · by_cases hka : k = a
      · simp [hka, GoMap.delete]
      · simp [hk, hka, GoMap.delete]

theorem getTimestampFromTSC_lt (unix : Int) :
    getTimestampFromTSC unix < 18446744073709551616 := by
  unfold getTimestampFromTSC
  omega

/-! ## Hexadecimal strings -/

theorem fromHexChar_hexDigit : ∀ n, n < 16 → fromHexChar (hexDigit n) = some n := by
  decide

theorem hexDecodeChars_isSome_iff : ∀ l : List Char,
    (hexDecodeChars l).isSome = true ↔
      (l.length % 2 = 0 ∧ ∀ c, c ∈ l → (fromHexChar c).isSome = true)
  | [] => by simp [hexDecodeChars]
  | [a] => by simp [hexDecodeChars]
  | a :: b :: rest => by
    have ih := hexDecodeChars_isSome_iff rest
    have hlen : (a :: b :: rest).length % 2 = rest.length % 2 := by
      simp only [List.length_cons]; omega
    rw [hlen]
    cases ha : fromHexChar a with
    | none =>
      simp only [hexDecodeChars, ha]
      constructor
      · intro h; simp at h
      · intro h
        have := h.2 a (List.mem_cons_self _ _)
        rw [ha] at this
        simp at this
    | some x =>
      cases hb : fromHexChar b with
      | none =>
        simp only [hexDecodeChars, ha, hb]
        constructor
        · intro h; simp at h
        · intro h
          have := h.2 b (List.mem_cons_of_mem _ (List.mem_cons_self _ _))
          rw [hb] at this
          simp at this
      | some y =>
        cases hr : hexDecodeChars rest with
        | none =>
          simp only [hexDecodeChars, ha, hb, hr]
          rw [hr] at ih
          constructor
          · intro h; simp at h
          · intro h
            have := ih.2 ⟨h.1, fun c hc => h.2 c (List.mem_cons_of_mem _ (List.mem_cons_of_mem _ hc))⟩
            simp at this
        | some r =>
          simp only [hexDecodeChars, ha, hb, hr]
          rw [hr] at ih
          have ih1 := ih.1 rfl
          refine ⟨fun _ => ⟨ih1.1, ?_⟩, fun _ => rfl⟩
          intro c hc
          simp only [List.mem_cons] at hc
          rcases hc with h | h | h
          · rw [h, ha]; rfl
          · rw [h, hb]; rfl
          · exact ih1.2 c h

theorem hexDecodeString_hexEncodeToString (bs : Bytes) (h : ∀ b, b ∈ bs → b < 256) :
    hexDecodeString (hexEncodeToString bs) = some bs := by
  unfold hexDecodeString hexEncodeToString
  show hexDecodeChars (hexEncodeChars bs) = some bs
  induction bs with
  | nil => rfl
  | cons b bs ih =>
    have hb := h b (List.mem_cons_self _ _)
    have ih1 := ih (fun x hx => h x (List.mem_cons_of_mem _ hx))
    have h1 := fromHexChar_hexDigit (b / 16 % 16) (by omega)
    have h2 := fromHexChar_hexDigit (b % 16) (by omega)
    simp only [hexEncodeChars, hexDecodeChars, h1, h2, ih1]
    have : b / 16 % 16 * 16 + b % 16 = b := by omega
    rw [this]

/-- A string decodes exactly when it has an even number of characters, all of them
hexadecimal digits. -/
theorem hexDecodeString_isSome_iff (s : String) :
    (hexDecodeString s).isSome = true ↔
      (s.length % 2 = 0 ∧ ∀ c, c ∈ s.data → (fromHexChar c).isSome = true) :=
  hexDecodeChars_isSome_iff s.data

/-! ## Eviction -/

theorem clearOldBlockHash_of_le (c : Cache) (h : c.blockHashSet.length ≤ 1500000) :
    clearOldBlockHash c = c := by
  unfold clearOldBlockHash
  have hmax : blockHashEntryMax = 1000000 := rfl
  simp only [hmax]
  rw [if_neg (by omega)]

theorem clearOldBlockHash_of_gt (c : Cache) (h : 1500000 < c.blockHashSet.length) :
    clearOldBlockHash c =
      { blockHash2Timestamp :=
          (c.blockHashSet.take (c.blockHashSet.length - 1000000)).foldl GoMap.delete
            c.blockHash2Timestamp
        blockHash2PI :=
          (c.blockHashSet.take (c.blockHashSet.length - 1000000)).foldl GoMap.delete
            c.blockHash2PI
        blockHash2Beta :=
          (c.blockHashSet.take (c.blockHashSet.length - 1000000)).foldl GoMap.delete
            c.blockHash2Beta
        blockHashSet :=
          (c.blockHashSet.drop (c.blockHashSet.length - 1000000)).take
              (c.blockHashSet.length - 1000000) ++
            List.replicate (c.blockHashSet.length - 1000000 -
              (c.blockHashSet.drop (c.blockHashSet.length - 1000000)).length) "" } := by
  unfold clearOldBlockHash
  have hmax : blockHashEntryMax = 1000000 := rfl
  simp only [hmax]
  rw [if_pos (by omega)]

theorem clearOldBlockHash_evicts (c : Cache) (h : 1500000 < c.blockHashSet.length) :
    ∃ n, n = c.blockHashSet.length - 1000000 ∧
      clearOldBlockHash c =
        { blockHash2Timestamp := (c.blockHashSet.take n).foldl GoMap.delete c.blockHash2Timestamp
          blockHash2PI := (c.blockHashSet.take n).foldl GoMap.delete c.blockHash2PI
          blockHash2Beta := (c.blockHashSet.take n).foldl GoMap.delete c.blockHash2Beta
          blockHashSet :=
            (c.blockHashSet.drop n).take n ++
              List.replicate (n - (c.blockHashSet.drop n).length) "" } :=
  ⟨_, rfl, clearOldBlockHash_of_gt c h⟩

/-- An eviction pass leaves `nums - 1000000` slots, the length `tmpSet` is made
with. -/
theorem clearOldBlockHash_length (c : Cache) (h : 1500000 < c.blockHashSet.length) :
    (clearOldBlockHash c).blockHashSet.length = c.blockHashSet.length - 1000000 := by
  obtain ⟨n, hn, hev⟩ := clearOldBlockHash_evicts c h
  rw [hev]
  show ((c.blockHashSet.drop n).take n ++
    List.replicate (n - (c.blockHashSet.drop n).length) "").length = _
  rw [List.length_append, List.length_take, List.length_replicate, List.length_drop]
  omega

theorem clearOldBlockHash_length_le (c : Cache) (h : c.blockHashSet.length ≤ 1500001) :
    (clearOldBlockHash c).blockHashSet.length ≤ 1500000 := by
  by_cases hle : c.blockHashSet.length ≤ 1500000
  · rw [clearOldBlockHash_of_le c hle]; exact hle
  · rw [clearOldBlockHash_length c (by omega)]
    omega

/-- The window after one `/blockhash` request is the old one, or the old one with
the new hash appended and then passed through `clearOldBlockHash`. -/
theorem blockhashHandler_cases (P : Platform) (k : Keys) (unix : Int) (b : List String)
    (c : Cache) :
    blockhashHandler P k unix b c = (c, []) ∨
    (∃ hb, blockhashHandler P k unix b c = (c, [hb])) ∨
    ∃ blkHash rest hb priv beta pi, b = blkHash :: rest ∧ k.vrfPubkey.length ≠ 0 ∧
      c.blockHash2Timestamp.getU64 blkHash = 0 ∧ hexDecodeString blkHash = some hb ∧
      k.vrfPrivKey = some priv ∧ P.Prove priv hb = some (beta, pi) ∧
      blockhashHandler P k unix b c =
        (clearOldBlockHash
          { blockHash2Beta := c.blockHash2Beta.set blkHash beta
            blockHash2PI := c.blockHash2PI.set blkHash pi
            blockHash2Timestamp :=
              c.blockHash2Timestamp.set blkHash (getTimestampFromTSC unix)
            blockHashSet := c.blockHashSet ++ [blkHash] }, [hb]) := by
  by_cases hpk : k.vrfPubkey.length = 0
  · left; simp [blockhashHandler, hpk]
  cases b with
  | nil => left; simp [blockhashHandler, hpk]
  | cons blkHash rest =>
    by_cases hts : c.blockHash2Timestamp.getU64 blkHash = 0
    · cases hdec : hexDecodeString blkHash with
      | none => left; simp [blockhashHandler, hpk, hts, hdec]
      | some hb =>
        cases hpriv : k.vrfPrivKey with
        | none => right; left; exact ⟨hb, by simp [blockhashHandler, hpk, hts, hdec, hpriv]⟩
        | some priv =>
          cases hprove : P.Prove priv hb with
          | none =>
            right; left
            exact ⟨hb, by simp [blockhashHandler, hpk, hts, hdec, hpriv, hprove]⟩
          | some bp =>
            obtain ⟨beta, pi⟩ := bp
            right; right
            exact ⟨blkHash, rest, hb, priv, beta, pi, rfl, hpk, hts, hdec, rfl, hprove,
              by simp [blockhashHandler, hpk, hts, hdec, hpriv, hprove]⟩
    · left; simp [blockhashHandler, hpk, hts]

theorem blockhashHandler_length_le (P : Platform) (k : Keys) (unix : Int) (b : List String)
    (c : Cache) (h : c.blockHashSet.length ≤ 1500000) :
    (blockhashHandler P k unix b c).1.blockHashSet.length ≤ 1500000 := by
  rcases blockhashHandler_cases P k unix b c with h1 | ⟨hb, h1⟩ | ⟨x, _, hb, _, _, _, _, _, _, _, _, _, h1⟩
  · rw [h1]; exact h
  · rw [h1]; exact h
  · rw [h1]
    apply clearOldBlockHash_length_le
    simp only [List.length_append, List.length_singleton]
    omega

theorem runSubmissions_length_le (P : Platform) (subs : List Submission) (c : Cache)
    (h : c.blockHashSet.length ≤ 1500000) :
    (runSubmissions P subs c).blockHashSet.length ≤ 1500000 := by
  induction subs generalizing c with
  | nil => exact h
  | cons s subs ih =>
    unfold runSubmissions
    rw [List.foldl_cons]
    exact ih _ (blockhashHandler_length_le P s.keys s.unix s.b c h)

/-! ## Claims -/

/-- C5. Eviction bound: after any sequence of `/blockhash` requests from the empty
cache, whatever the keys, clock readings and parameters of each, the submission
window holds at most 1,500,000 entries. -/
theorem window_length_le (P : Platform) (subs : List Submission) :
    (runSubmissions P subs Cache.empty).blockHashSet.length ≤ 1500000 :=
  runSubmissions_length_le P subs Cache.empty (by simp [Cache.empty])

/-- C8. Rejected submissions are silent no-ops: when the VRF key is unset or the
parameter is not valid hex, `/blockhash` leaves the three maps and the window as
they were, calls no prover, and a hash without a record still has none. -/
theorem rejected_submission_noop (P : Platform) (k : Keys) (unix : Int) (h : String)
    (rest : List String) (c : Cache)
    (hrej : k.vrfPubkey.length = 0 ∨ hexDecodeString h = none) :
    (blockhashHandler P k unix (h :: rest) c).1 = c ∧
    (blockhashHandler P k unix (h :: rest) c).2 = [] ∧
    (c.blockHash2Timestamp h = none →
      (blockhashHandler P k unix (h :: rest) c).1.blockHash2Timestamp h = none) := by
  have key : blockhashHandler P k unix (h :: rest) c = (c, []) := by
    unfold blockhashHandler
    rcases hrej with hk | hd
    · simp [hk]
    · by_cases hpk : k.vrfPubkey.length = 0
      · simp [hpk]
      · by_cases hts : c.blockHash2Timestamp.getU64 h = 0
        · simp [hpk, hts, hd]
        · simp [hpk, hts]
  rw [key]
  exact ⟨rfl, rfl, fun hn => hn⟩

theorem rejected_submission_noop_witness :
    (([] : Bytes).length = 0 ∨ hexDecodeString "zz" = none) ∧
    (blockhashHandler testPlatform { vrfPubkey := [], vrfPrivKey := none } 7
        ("zz" :: []) Cache.empty).1 = Cache.empty :=
  ⟨Or.inl rfl,
    (rejected_submission_noop testPlatform { vrfPubkey := [], vrfPrivKey := none } 7 "zz" []
      Cache.empty (Or.inl rfl)).1⟩

/-- A slave without a key that receives valid hex takes the key: afterwards its
public key is the compressed serialisation of the received private key. -/
theorem key_taken_on_first_receipt (P : Platform) (writeOk : Bool) (key : String)
    (rest : List String) (keyBytes : Bytes) (n : Node) (hslave : n.isMaster = false)
    (hunset : n.keys.vrfPubkey.length = 0) (hdec : hexDecodeString key = some keyBytes) :
    (keyRoute P writeOk (key :: rest) n).node.keys =
      { vrfPubkey := P.SerializeCompressed (P.PrivKeyFromBytes keyBytes)
        vrfPrivKey := some (P.PrivKeyFromBytes keyBytes) } := by
  simp only [keyRoute, keyHandler, hslave, hunset, hdec, sealKeyToFile]
  cases P.SealWithProductKey (P.Serialize (P.PrivKeyFromBytes keyBytes)) with
  | none => simp
  | some out => cases writeOk <;> simp

/-- C7. Key immutability: on a node whose VRF key is set, a `/key` request with any
parameter leaves the private key, the public key and the sealed key file as they
were and writes nothing. -/
theorem key_request_ignored_when_set (P : Platform) (writeOk : Bool) (k : List String)
    (n : Node) (hset : n.keys.vrfPubkey.length ≠ 0) :
    (keyRoute P writeOk k n).node = n ∧ (keyRoute P writeOk k n).writes = [] ∧
    (keyRoute P writeOk k n).panicked = false := by
  unfold keyRoute keyHandler
  by_cases hm : n.isMaster = true
  · simp [hm]
  · simp [hm, hset]

theorem key_request_ignored_when_set_witness :
    keyedSlave.keys.vrfPubkey.length ≠ 0 ∧
    (keyRoute testPlatform true ["0009"] keyedSlave).node = keyedSlave ∧
    (keyRoute testPlatform true ["0009"] keyedSlave).writes = [] ∧
    (keyRoute testPlatform true ["0009"] keyedSlave).panicked = false :=
  ⟨by decide, key_request_ignored_when_set testPlatform true ["0009"] keyedSlave (by decide)⟩

/-- C2. Attestation strictness: for a report the platform accepts, `verifyReport`
returns nil exactly when the six checks hold (bound digest, unique ID, security
version at least 2, product ID 1, signer ID, no debug); a report that passes the
other five and has `Debug` set is refused with the debug error. -/
theorem verifyReport_ok_iff (P : Platform) (reportBytes certBytes signer uniqID : Bytes)
    (report : Report) (hacc : P.VerifyRemoteReport reportBytes = .ok report) :
    (verifyReport P reportBytes certBytes signer uniqID = .ok ↔
      reportDataDigest report = some (P.Sum256 certBytes) ∧ report.UniqueID = uniqID ∧
      2 ≤ report.SecurityVersion ∧ littleEndianUint16 report.ProductID = some 1 ∧
      report.SignerID = signer ∧ report.Debug = false) ∧
    (reportDataDigest report = some (P.Sum256 certBytes) → report.UniqueID = uniqID →
      2 ≤ report.SecurityVersion → littleEndianUint16 report.ProductID = some 1 →
      report.SignerID = signer → report.Debug = true →
      verifyReport P reportBytes certBytes signer uniqID = .err "should not open debug") := by
  constructor
  · cases hdig : reportDataDigest report with
    | none => simp [verifyReport, hacc, hdig]
    | some digest =>
      by_cases h1 : digest = P.Sum256 certBytes
      · by_cases h2 : report.UniqueID = uniqID
        · by_cases h3 : report.SecurityVersion < 2
          · have h3n : ¬ 2 ≤ report.SecurityVersion := by omega
            simp [verifyReport, hacc, hdig, h1, h2, h3, h3n]
          · have h3p : 2 ≤ report.SecurityVersion := by omega
            cases hprod : littleEndianUint16 report.ProductID with
            | none => simp [verifyReport, hacc, hdig, hprod, h1, h2, h3]
            | some productID =>
              by_cases h4 : productID = 1
              · by_cases h5 : report.SignerID = signer
                · cases h6 : report.Debug <;>
                    simp [verifyReport, hacc, hdig, hprod, h1, h2, h3, h3p, h4, h5, h6]
                · simp [verifyReport, hacc, hdig, hprod, h1, h2, h3, h4, h5]
              · simp [verifyReport, hacc, hdig, hprod, h1, h2, h3, h4]
        · simp [verifyReport, hacc, hdig, h1, h2]
      · simp [verifyReport, hacc, hdig, h1]
  · intro h1 h2 h3 h4 h5 h6
    have h3n : ¬ report.SecurityVersion < 2 := by omega
    simp [verifyReport, hacc, h1, h2, h3n, h4, h5, h6]

theorem verifyReport_ok_iff_witness :
    testPlatform.VerifyRemoteReport (List.replicate 32 48) =
      .ok { Data := List.replicate 32 48, SecurityVersion := 2, Debug := false,
            UniqueID := [7], SignerID := [9], ProductID := [1, 0] } ∧
    verifyReport testPlatform (List.replicate 32 48) [48] [9] [7] = .ok :=
  have hacc : testPlatform.VerifyRemoteReport (List.replicate 32 48) =
      .ok { Data := List.replicate 32 48, SecurityVersion := 2, Debug := false,
            UniqueID := [7], SignerID := [9], ProductID := [1, 0] } := rfl
  ⟨hacc, (verifyReport_ok_iff testPlatform (List.replicate 32 48) [48] [9] [7] _ hacc).1.2
    (by decide)⟩

/-- C9, as the code has it. Handshake polling: the loop ends exactly at the first
round whose `/cert` answer is non-empty, with that answer and the `/peer-report`
answer of the same round, which may be empty; it ends as soon as such a round is
reached. -/
theorem pollPeer_exit (responses : Nat → String × String) :
    (∀ fuel certStr reportStr, pollPeer responses fuel 0 "" "" = some (certStr, reportStr) →
      certStr.length ≠ 0 ∧
      ∃ i, i < fuel ∧ responses i = (certStr, reportStr) ∧
        ∀ j, j < i → (responses j).1.length = 0) ∧
    (∀ i, (responses i).1.length ≠ 0 → (∀ j, j < i → (responses j).1.length = 0) →
      ∀ fuel, i < fuel → pollPeer responses fuel 0 "" "" = some (responses i)) := by
  have gen : ∀ fuel start certStr reportStr out,
      pollPeer responses fuel start certStr reportStr = some out →
      out.1.length ≠ 0 ∧
      (certStr.length = 0 →
        ∃ i, start ≤ i ∧ i < start + fuel ∧ responses i = out ∧
          ∀ j, start ≤ j → j < i → (responses j).1.length = 0) := by
    intro fuel
    induction fuel with
    | zero =>
      intro start certStr reportStr out h
      unfold pollPeer at h
      by_cases hc : certStr.length = 0
      · simp [hc] at h
      · simp only [hc, if_false, Option.some.injEq] at h
        subst h
        exact ⟨hc, fun h0 => absurd h0 hc⟩
    | succ fuel ih =>
      intro start certStr reportStr out h
      unfold pollPeer at h
      by_cases hc : certStr.length = 0
      · simp only [hc, if_true] at h
        obtain ⟨hne, hex⟩ := ih (start + 1) _ _ out h
        refine ⟨hne, fun _ => ?_⟩
        by_cases hr : (responses start).1.length = 0
        · obtain ⟨i, hi1, hi2, hi3, hi4⟩ := hex hr
          refine ⟨i, by omega, by omega, hi3, fun j hj1 hj2 => ?_⟩
          by_cases hjs : j = start
          · rw [hjs]; exact hr
          · exact hi4 j (by omega) hj2
        · have hout : out = responses start := by
            cases fuel with
            | zero =>
              unfold pollPeer at h
              simp only [hr, if_false, Option.some.injEq] at h
              exact h.symm
            | succ f =>
              unfold pollPeer at h
              simp only [hr, if_false, Option.some.injEq] at h
              exact h.symm
          exact ⟨start, le_refl _, by omega, hout.symm, fun j hj1 hj2 => by omega⟩
      · simp only [hc, if_false, Option.some.injEq] at h
        subst h
        exact ⟨hc, fun h0 => absurd h0 hc⟩
  have run : ∀ fuel start i, start ≤ i → i < start + fuel → (responses i).1.length ≠ 0 →
      (∀ j, start ≤ j → j < i → (responses j).1.length = 0) →
      pollPeer responses fuel start "" "" = some (responses i) := by
    intro fuel
    induction fuel with
    | zero => intro start i h1 h2; omega
    | succ fuel ih =>
      intro start i h1 h2 hne hbefore
      unfold pollPeer
      simp only [String.length_empty, if_true]
      by_cases his : i = start
      · subst his
        cases fuel with
        | zero => unfold pollPeer; simp [hne]
        | succ f => unfold pollPeer; simp [hne]
      · have hs : (responses start).1.length = 0 := hbefore start (le_refl _) (by omega)
        have hrec := ih (start + 1) i (by omega) (by omega) hne
          (fun j hj1 hj2 => hbefore j (by omega) hj2)
        have hstep : ∀ r, (responses start).1.length = 0 →
            pollPeer responses fuel (start + 1) (responses start).1 r =
              pollPeer responses fuel (start + 1) "" "" := by
          intro r hz
          cases fuel with
          | zero => unfold pollPeer; simp [hz]
          | succ f => unfold pollPeer; simp [hz]
        rw [hstep _ hs]
        exact hrec
  constructor
  · intro fuel certStr reportStr h
    obtain ⟨hne, hex⟩ := gen fuel 0 "" "" (certStr, reportStr) h
    obtain ⟨i, _, hi2, hi3, hi4⟩ := hex rfl
    exact ⟨hne, i, by omega, hi3, fun j hj => hi4 j (Nat.zero_le _) hj⟩
  · intro i hne hbefore fuel hlt
    exact run fuel 0 i (Nat.zero_le _) (by omega) hne (fun j _ hj => hbefore j hj)

theorem pollPeer_exit_witness :
    pollPeer certOnlyPeer 3 0 "" "" = some ("3082", "") ∧ ("3082" : String).length ≠ 0 :=
  have h : pollPeer certOnlyPeer 3 0 "" "" = some ("3082", "") := by decide
  ⟨h, ((pollPeer_exit certOnlyPeer).1 3 "3082" "" h).1⟩

/-- C9, as stated, fails: with a peer whose `/cert` answers and whose
`/peer-report` request fails, the loop ends in the first round with an empty
report string. -/
theorem pollPeer_report_may_be_empty :
    pollPeer certOnlyPeer 3 0 "" "" = some ("3082", "") ∧
    ¬ (∀ fuel certStr reportStr, pollPeer certOnlyPeer fuel 0 "" "" = some (certStr, reportStr) →
        certStr.length ≠ 0 ∧ reportStr.length ≠ 0) := by
  have h : pollPeer certOnlyPeer 3 0 "" "" = some ("3082", "") := by decide
  refine ⟨h, fun hall => ?_⟩
  exact (hall 3 "3082" "" h).2 rfl

/-- C3, as the code has it. The key goes only to an attested peer: when the check of
the retrieved certificate and report fails, the function panics without any
request; every request made after the loop is the `/key` request with the
serialized private key, and it is made only by a master holding a public key
whose peer passed the check; under those conditions it is made whenever the
certificate parses and the private key is present. -/
theorem key_sent_only_to_verified_peer (P : Platform) (isMaster : Bool) (signer : Bytes)
    (k : Keys) (peerAddress : String) (uniqID : Bytes) (certStr reportStr : String) :
    (peerVerified P signer uniqID certStr reportStr = false →
      verifyAndSendKey P isMaster signer k peerAddress uniqID certStr reportStr =
        (.panicked, [])) ∧
    (∀ req, req ∈ (verifyAndSendKey P isMaster signer k peerAddress uniqID certStr
        reportStr).2 →
      peerVerified P signer uniqID certStr reportStr = true ∧ isMaster = true ∧
      k.vrfPubkey.length ≠ 0 ∧
      ∃ certBytes priv, hexDecodeString certStr = some certBytes ∧
        P.ParseCertificate certBytes = true ∧ k.vrfPrivKey = some priv ∧
        req = keyRequest P peerAddress certBytes priv) ∧
    (∀ certBytes priv, peerVerified P signer uniqID certStr reportStr = true →
      isMaster = true → k.vrfPubkey.length ≠ 0 → hexDecodeString certStr = some certBytes →
      P.ParseCertificate certBytes = true → k.vrfPrivKey = some priv →
      verifyAndSendKey P isMaster signer k peerAddress uniqID certStr reportStr =
        (.returned, [keyRequest P peerAddress certBytes priv])) := by
  cases hc : hexDecodeString certStr with
  | none => simp [verifyAndSendKey, peerVerified, hc]
  | some certBytes =>
    cases hr : hexDecodeString reportStr with
    | none => simp [verifyAndSendKey, peerVerified, hc, hr]
    | some reportBytes =>
      cases hv : verifyReport P reportBytes certBytes signer uniqID with
      | err e => simp [verifyAndSendKey, peerVerified, hc, hr, hv]
      | panicked => simp [verifyAndSendKey, peerVerified, hc, hr, hv]
      | ok =>
        by_cases hm : isMaster = true
        · by_cases hpk : k.vrfPubkey.length = 0
          · simp [verifyAndSendKey, peerVerified, hc, hr, hv, hm, hpk]
          · cases hparse : P.ParseCertificate certBytes with
            | false =>
              have hres : verifyAndSendKey P isMaster signer k peerAddress uniqID certStr
                  reportStr = (.panicked, []) := by
                simp [verifyAndSendKey, hc, hr, hv, hm, hpk, hparse]
              rw [hres]
              refine ⟨fun _ => rfl, fun req hreq => absurd hreq (List.not_mem_nil req), ?_⟩
              intro cb priv _ _ _ hcb hp
              simp only [Option.some.injEq] at hcb
              rw [← hcb, hparse] at hp
              exact absurd hp (by simp)
            | true =>
              cases hpriv : k.vrfPrivKey with
              | none =>
                simp [verifyAndSendKey, peerVerified, hc, hr, hv, hm, hpk, hparse, hpriv]
              | some priv =>
                simp [verifyAndSendKey, peerVerified, keyRequest, hc, hr, hv, hm, hpk, hparse,
                  hpriv, String.append_assoc]
        · simp [verifyAndSendKey, peerVerified, hc, hr, hv, hm]

theorem key_sent_only_to_verified_peer_witness :
    (peerVerified testPlatform [9] [7] "30" derReportHex = true ∧
      verifyAndSendKey testPlatform true [9] testKeys "peer:8081" [7] "30" derReportHex =
        (.returned, [keyRequest testPlatform "peer:8081" [48] 5])) ∧
    (peerVerified testPlatform [9] [8] "30" derReportHex = false ∧
      verifyAndSendKey testPlatform true [9] testKeys "peer:8081" [8] "30" derReportHex =
        (.panicked, [])) :=
  have hv : peerVerified testPlatform [9] [7] "30" derReportHex = true := by decide
  have hn : peerVerified testPlatform [9] [8] "30" derReportHex = false := by decide
  ⟨⟨hv, (key_sent_only_to_verified_peer testPlatform true [9] testKeys "peer:8081" [7] "30"
      derReportHex).2.2 [48] 5 hv rfl (by decide) (by decide) (by decide) rfl⟩,
    ⟨hn, (key_sent_only_to_verified_peer testPlatform true [9] testKeys "peer:8081" [8] "30"
      derReportHex).1 hn⟩⟩

/-- C3, as stated, fails: a master holding a public key, facing a peer whose report
passes the check but whose certificate bytes do not parse, panics before any `/key`
request is made. -/
theorem key_not_sent_when_certificate_unparsable :
    peerVerified testPlatform [9] [7] "aa" boundReportHex = true ∧
    testKeys.vrfPubkey.length ≠ 0 ∧
    verifyAndSendKey testPlatform true [9] testKeys "peer:8081" [7] "aa" boundReportHex =
      (.panicked, []) := by
  decide

/-! ## The reveal gate -/

theorem jsonMarshal_ne_empty (r : vrfResult) : jsonMarshal r ≠ "" := by
  intro h
  have hlen := congrArg String.length h
  simp only [jsonMarshal, String.length_append] at hlen
  have h1 : ("\x7b\"PI\":\"" : String).length = 7 := by decide
  have h2 : ("" : String).length = 0 := rfl
  omega

theorem GoMap.getU64_eq_zero_of_none (m : GoMap Nat) (k : String) (h : m k = none) :
    m.getU64 k = 0 := by
  simp [GoMap.getU64, h]

theorem GoMap.getU64_of_some (m : GoMap Nat) (k : String) (t : Nat) (h : m k = some t) :
    m.getU64 k = t := by
  simp [GoMap.getU64, h]

/-- C1, as the code has it. Delay gate, for a stored timestamp whose sum with 5 does
not wrap around `2^64`: `/vrf` answers with a non-empty body exactly when the hash
has a record with a non-zero `submittedAt` and `now ≥ submittedAt + 5`; a non-empty
body is the JSON object of the hex-encoded stored PI and Beta; an unknown hash and
a hash that is not ready both get the empty body. -/
theorem vrf_delay_gate (c : Cache) (h : String) (rest : List String) (unix : Int)
    (hwrap : c.blockHash2Timestamp.getU64 h + 5 < 18446744073709551616) :
    (vrfHandler unix (h :: rest) c ≠ "" ↔
      ∃ t, c.blockHash2Timestamp h = some t ∧ t ≠ 0 ∧ t + 5 ≤ getTimestampFromTSC unix) ∧
    (vrfHandler unix (h :: rest) c ≠ "" →
      vrfHandler unix (h :: rest) c =
        jsonMarshal { PI := hexEncodeToString (c.blockHash2PI.getBytes h)
                      Beta := hexEncodeToString (c.blockHash2Beta.getBytes h) }) ∧
    (c.blockHash2Timestamp h = none → vrfHandler unix (h :: rest) c = "") ∧
    (∀ t, c.blockHash2Timestamp h = some t → getTimestampFromTSC unix < t + 5 →
      vrfHandler unix (h :: rest) c = "") := by
  have hmod : (c.blockHash2Timestamp.getU64 h + 5) % 18446744073709551616 =
      c.blockHash2Timestamp.getU64 h + 5 := Nat.mod_eq_of_lt hwrap
  have hjson := jsonMarshal_ne_empty
    { PI := hexEncodeToString (c.blockHash2PI.getBytes h)
      Beta := hexEncodeToString (c.blockHash2Beta.getBytes h) }
  cases hts : c.blockHash2Timestamp h with
  | none =>
    have h0 := GoMap.getU64_eq_zero_of_none _ _ hts
    have hres : vrfHandler unix (h :: rest) c = "" := by simp [vrfHandler, h0]
    rw [hres]
    simp
  | some t =>
    have ht := GoMap.getU64_of_some _ _ _ hts
    rw [ht] at hmod
    by_cases hz : t = 0
    · have hres : vrfHandler unix (h :: rest) c = "" := by simp [vrfHandler, ht, hz]
      rw [hres]
      simp [hz]
    · by_cases hready : t + 5 ≤ getTimestampFromTSC unix
      · have hres : vrfHandler unix (h :: rest) c =
            jsonMarshal { PI := hexEncodeToString (c.blockHash2PI.getBytes h)
                          Beta := hexEncodeToString (c.blockHash2Beta.getBytes h) } := by
          simp only [vrfHandler, ht, hmod, if_neg hz]
          rw [if_neg (by omega)]
        rw [hres]
        refine ⟨⟨fun _ => ⟨t, rfl, hz, hready⟩, fun _ => hjson⟩, fun _ => rfl,
          fun hn => by simp at hn, ?_⟩
        intro t2 ht2 hlt
        simp only [Option.some.injEq] at ht2
        omega
      · have hres : vrfHandler unix (h :: rest) c = "" := by
          simp only [vrfHandler, ht, hmod, if_neg hz]
          rw [if_pos (by omega)]
        rw [hres]
        refine ⟨⟨fun hne => absurd rfl hne, ?_⟩, fun hne => absurd rfl hne, fun _ => rfl,
          fun _ _ _ => rfl⟩
        rintro ⟨t2, ht2, _, hle⟩
        simp only [Option.some.injEq] at ht2
        omega

theorem vrf_delay_gate_witness :
    (cacheAfter 100).blockHash2Timestamp.getU64 "aa" + 5 < 18446744073709551616 ∧
    (vrfHandler 105 ("aa" :: []) (cacheAfter 100) ≠ "" ↔
      ∃ t, (cacheAfter 100).blockHash2Timestamp "aa" = some t ∧ t ≠ 0 ∧
        t + 5 ≤ getTimestampFromTSC 105) :=
  have hw : (cacheAfter 100).blockHash2Timestamp.getU64 "aa" + 5 < 18446744073709551616 := by
    decide
  ⟨hw, (vrf_delay_gate (cacheAfter 100) "aa" [] 105 hw).1⟩

/-- C1, as stated, fails at both ends of the clock. A hash submitted at clock
reading 0 has a record and ten time units later `now ≥ submittedAt + 5`, yet
`/vrf` answers with the empty body. A hash submitted at clock reading -1 is stored
with timestamp `2^64 - 1`; at clock reading 4 `now < submittedAt + 5`, yet `/vrf`
answers with the data. -/
theorem vrf_gate_fails_at_zero_and_at_wraparound :
    ((cacheAfter 0).blockHash2Timestamp "aa" = some 0 ∧
      0 + 5 ≤ getTimestampFromTSC 10 ∧
      vrfHandler 10 ["aa"] (cacheAfter 0) = "") ∧
    ((cacheAfter (-1)).blockHash2Timestamp "aa" = some 18446744073709551615 ∧
      ¬ (18446744073709551615 + 5 ≤ getTimestampFromTSC 4) ∧
      vrfHandler 4 ["aa"] (cacheAfter (-1)) ≠ "") := by
  decide

/-! ## First write wins -/

theorem blockhashHandler_of_recorded (P : Platform) (k : Keys) (unix : Int) (h : String)
    (rest : List String) (c : Cache) (hrec : c.blockHash2Timestamp.getU64 h ≠ 0) :
    blockhashHandler P k unix (h :: rest) c = (c, []) := by
  by_cases hpk : k.vrfPubkey.length = 0
  · simp [blockhashHandler, hpk]
  · simp [blockhashHandler, hpk, hrec]

theorem blockhashHandler_accept (P : Platform) (k : Keys) (unix : Int) (h : String)
    (rest : List String) (c : Cache) (hb : Bytes) (priv : PrivateKey) (beta pi : Bytes)
    (hpk : k.vrfPubkey.length ≠ 0) (hts : c.blockHash2Timestamp.getU64 h = 0)
    (hdec : hexDecodeString h = some hb) (hpriv : k.vrfPrivKey = some priv)
    (hprove : P.Prove priv hb = some (beta, pi)) :
    blockhashHandler P k unix (h :: rest) c =
      (clearOldBlockHash
        { blockHash2Beta := c.blockHash2Beta.set h beta
          blockHash2PI := c.blockHash2PI.set h pi
          blockHash2Timestamp := c.blockHash2Timestamp.set h (getTimestampFromTSC unix)
          blockHashSet := c.blockHashSet ++ [h] }, [hb]) := by
  simp [blockhashHandler, hpk, hts, hdec, hpriv, hprove]

theorem blockhashHandler_reject (P : Platform) (k : Keys) (unix : Int) (h : String)
    (rest : List String) (c : Cache)
    (hno : ¬ (k.vrfPubkey.length ≠ 0 ∧ c.blockHash2Timestamp.getU64 h = 0 ∧
      ∃ hb priv out, hexDecodeString h = some hb ∧ k.vrfPrivKey = some priv ∧
        P.Prove priv hb = some out)) :
    (blockhashHandler P k unix (h :: rest) c).1 = c := by
  rcases blockhashHandler_cases P k unix (h :: rest) c with
    h1 | ⟨hb, h1⟩ | ⟨x, r, hb, priv, beta, pi, hx, hpk, hts, hdec, hpriv, hprove, _⟩
  · rw [h1]
  · rw [h1]
  · simp only [List.cons.injEq] at hx
    obtain ⟨hx1, _⟩ := hx
    subst hx1
    exact absurd ⟨hpk, hts, hb, priv, (beta, pi), hdec, hpriv, hprove⟩ hno

/-- A hash stored by a submission at a non-zero clock reading keeps its record
through the eviction pass that follows, as long as the hash was not already in the
window. -/
theorem stored_timestamp_survives (c : Cache) (h : String) (beta pi : Bytes) (t : Nat)
    (hnew : h ∉ c.blockHashSet) :
    (clearOldBlockHash
      { blockHash2Beta := c.blockHash2Beta.set h beta
        blockHash2PI := c.blockHash2PI.set h pi
        blockHash2Timestamp := c.blockHash2Timestamp.set h t
        blockHashSet := c.blockHashSet ++ [h] }).blockHash2Timestamp h = some t := by
  by_cases hle : (c.blockHashSet ++ [h]).length ≤ 1500000
  · rw [clearOldBlockHash_of_le _ hle]
    simp [GoMap.set]
  · have hgt : 1500000 < (c.blockHashSet ++ [h]).length := by omega
    rw [clearOldBlockHash_of_gt _ hgt]
    simp only [GoMap.foldl_delete_apply]
    have hlen : (c.blockHashSet ++ [h]).length = c.blockHashSet.length + 1 := by simp
    have hnot : h ∉ List.take ((c.blockHashSet ++ [h]).length - 1000000)
        (c.blockHashSet ++ [h]) := by
      rw [List.take_append_of_le_length (by omega)]
      exact fun hm => hnew (List.mem_of_mem_take hm)
    rw [if_neg hnot]
    simp [GoMap.set]

/-- C6, as the code has it. Idempotent first write, on a cache whose window entries
all carry a non-zero timestamp and for a first clock reading that is non-zero:
submitting the hash again gives exactly the cache of the single submission; if the
hash has a record after the first submission, the second one calls no prover (and
so appends nothing); and the first submission does leave a record when the key is
set, the hash is valid hex and the prover succeeds. -/
theorem second_submission_noop (P : Platform) (k : Keys) (c : Cache) (h : String)
    (rest1 rest2 : List String) (t1 t2 : Int)
    (hwf : ∀ x, x ∈ c.blockHashSet → c.blockHash2Timestamp.getU64 x ≠ 0)
    (ht1 : getTimestampFromTSC t1 ≠ 0) :
    (blockhashHandler P k t2 (h :: rest2) (blockhashHandler P k t1 (h :: rest1) c).1).1 =
      (blockhashHandler P k t1 (h :: rest1) c).1 ∧
    ((blockhashHandler P k t1 (h :: rest1) c).1.blockHash2Timestamp.getU64 h ≠ 0 →
      blockhashHandler P k t2 (h :: rest2) (blockhashHandler P k t1 (h :: rest1) c).1 =
        ((blockhashHandler P k t1 (h :: rest1) c).1, [])) ∧
    (∀ hb priv out, k.vrfPubkey.length ≠ 0 → c.blockHash2Timestamp.getU64 h = 0 →
      hexDecodeString h = some hb → k.vrfPrivKey = some priv → P.Prove priv hb = some out →
      (blockhashHandler P k t1 (h :: rest1) c).1.blockHash2Timestamp.getU64 h ≠ 0) := by
  have hstored : ∀ hb priv out, k.vrfPubkey.length ≠ 0 → c.blockHash2Timestamp.getU64 h = 0 →
      hexDecodeString h = some hb → k.vrfPrivKey = some priv → P.Prove priv hb = some out →
      (blockhashHandler P k t1 (h :: rest1) c).1.blockHash2Timestamp.getU64 h ≠ 0 := by
    intro hb priv out hpk hts hdec hpriv hprove
    obtain ⟨beta, pi⟩ := out
    rw [blockhashHandler_accept P k t1 h rest1 c hb priv beta pi hpk hts hdec hpriv hprove]
    have hnew : h ∉ c.blockHashSet := fun hm => hwf h hm hts
    have hsome := stored_timestamp_survives c h beta pi (getTimestampFromTSC t1) hnew
    rw [GoMap.getU64_of_some _ _ _ hsome]
    exact ht1
  refine ⟨?_, fun hrec => blockhashHandler_of_recorded P k t2 h rest2 _ hrec, hstored⟩
  by_cases hacc : k.vrfPubkey.length ≠ 0 ∧ c.blockHash2Timestamp.getU64 h = 0 ∧
      ∃ hb priv out, hexDecodeString h = some hb ∧ k.vrfPrivKey = some priv ∧
        P.Prove priv hb = some out
  · obtain ⟨hpk, hts, hb, priv, out, hdec, hpriv, hprove⟩ := hacc
    rw [blockhashHandler_of_recorded P k t2 h rest2 _
      (hstored hb priv out hpk hts hdec hpriv hprove)]
  · rw [blockhashHandler_reject P k t1 h rest1 c hacc]
    exact blockhashHandler_reject P k t2 h rest2 c hacc

theorem second_submission_noop_witness :
    (∀ x, x ∈ Cache.empty.blockHashSet → Cache.empty.blockHash2Timestamp.getU64 x ≠ 0) ∧
    getTimestampFromTSC 100 ≠ 0 ∧
    (blockhashHandler testPlatform testKeys 200 ("aa" :: [])
      (blockhashHandler testPlatform testKeys 100 ("aa" :: []) Cache.empty).1).1 =
      (blockhashHandler testPlatform testKeys 100 ("aa" :: []) Cache.empty).1 :=
  have hwf : ∀ x, x ∈ Cache.empty.blockHashSet →
      Cache.empty.blockHash2Timestamp.getU64 x ≠ 0 := fun x hx => by
    simp [Cache.empty] at hx
  have ht : getTimestampFromTSC 100 ≠ 0 := by decide
  ⟨hwf, ht, (second_submission_noop testPlatform testKeys Cache.empty "aa" [] [] 100 200
    hwf ht).1⟩

/-- C6, as stated, fails for a first submission at clock reading 0: the stored
timestamp 0 reads as "no record", so the second submission calls the prover again,
overwrites the timestamp and appends the hash to the window a second time. -/
theorem resubmission_after_zero_clock_recomputes :
    (0 : Int) ≤ 1 ∧ testKeys.vrfPubkey.length ≠ 0 ∧
    (cacheAfter 0).blockHashSet = ["aa"] ∧
    (cacheAfter 0).blockHash2Timestamp "aa" = some 0 ∧
    (blockhashHandler testPlatform testKeys 1 ["aa"] (cacheAfter 0)).1.blockHashSet =
      ["aa", "aa"] ∧
    (blockhashHandler testPlatform testKeys 1 ["aa"] (cacheAfter 0)).1.blockHash2Timestamp
      "aa" = some 1 ∧
    (blockhashHandler testPlatform testKeys 1 ["aa"] (cacheAfter 0)).2 = [[170]] := by
  decide

/-! ## Window entries keep their records -/

/-- One `/blockhash` request at a non-zero clock reading keeps the window within
1,500,000 entries, free of repetition, and every entry of it recorded with a
non-zero timestamp. -/
theorem blockhashHandler_window_stamped (P : Platform) (k : Keys) (unix : Int)
    (b : List String) (c : Cache) (hclock : getTimestampFromTSC unix ≠ 0)
    (hlen : c.blockHashSet.length ≤ 1500000) (hnd : c.blockHashSet.Nodup)
    (hst : ∀ x, x ∈ c.blockHashSet → c.blockHash2Timestamp.getU64 x ≠ 0) :
    (blockhashHandler P k unix b c).1.blockHashSet.Nodup ∧
    ∀ x, x ∈ (blockhashHandler P k unix b c).1.blockHashSet →
      (blockhashHandler P k unix b c).1.blockHash2Timestamp.getU64 x ≠ 0 := by
  rcases blockhashHandler_cases P k unix b c with
    h1 | ⟨hb, h1⟩ | ⟨h, _, hb, _, beta, pi, _, _, hts, _, _, _, h1⟩
  · rw [h1]; exact ⟨hnd, hst⟩
  · rw [h1]; exact ⟨hnd, hst⟩
  · rw [h1]
    have hnew : h ∉ c.blockHashSet := fun hm => hst h hm hts
    have hnd1 : (c.blockHashSet ++ [h]).Nodup := by
      rw [List.nodup_append]
      refine ⟨hnd, List.nodup_singleton h, ?_⟩
      intro a ha hah
      rw [List.mem_singleton] at hah
      exact hnew (hah ▸ ha)
    have hst1 : ∀ x, x ∈ c.blockHashSet ++ [h] →
        (c.blockHash2Timestamp.set h (getTimestampFromTSC unix)).getU64 x ≠ 0 := by
      intro x hx
      by_cases hxh : x = h
      · simp [GoMap.getU64, GoMap.set, hxh, hclock]
      · have hxw : x ∈ c.blockHashSet := by
          rcases List.mem_append.1 hx with hm | hm
          · exact hm
          · exact absurd (List.mem_singleton.1 hm) hxh
        have := hst x hxw
        simpa [GoMap.getU64, GoMap.set, hxh] using this
    by_cases hle : (c.blockHashSet ++ [h]).length ≤ 1500000
    · rw [clearOldBlockHash_of_le _ hle]
      exact ⟨hnd1, hst1⟩
    · have hl1 : (c.blockHashSet ++ [h]).length = c.blockHashSet.length + 1 := by simp
      obtain ⟨n, hn, hev⟩ := clearOldBlockHash_evicts
        { blockHash2Beta := c.blockHash2Beta.set h beta
          blockHash2PI := c.blockHash2PI.set h pi
          blockHash2Timestamp := c.blockHash2Timestamp.set h (getTimestampFromTSC unix)
          blockHashSet := c.blockHashSet ++ [h] } (by
          show 1500000 < (c.blockHashSet ++ [h]).length
          omega)
      have hn1 : n = (c.blockHashSet ++ [h]).length - 1000000 := hn
      rw [hev]
      have hpad : n - (List.drop n (c.blockHashSet ++ [h])).length = 0 := by
        rw [List.length_drop]; omega
      have hwin : (List.drop n (c.blockHashSet ++ [h])).take n ++
          List.replicate (n - (List.drop n (c.blockHashSet ++ [h])).length) "" =
          (List.drop n (c.blockHashSet ++ [h])).take n := by
        rw [hpad, List.replicate_zero, List.append_nil]
      constructor
      · show ((List.drop n (c.blockHashSet ++ [h])).take n ++
          List.replicate (n - (List.drop n (c.blockHashSet ++ [h])).length) "").Nodup
        rw [hwin]
        exact (hnd1.sublist (List.drop_sublist _ _)).sublist (List.take_sublist _ _)
      · intro x hx
        have hx1 : x ∈ (List.drop n (c.blockHashSet ++ [h])).take n := by
          rw [← hwin]; exact hx
        have hxd : x ∈ List.drop n (c.blockHashSet ++ [h]) := List.mem_of_mem_take hx1
        have hxt : x ∉ List.take n (c.blockHashSet ++ [h]) :=
          fun hm => List.disjoint_take_drop hnd1 (le_refl n) hm hxd
        show GoMap.getU64 (List.foldl GoMap.delete
          (c.blockHash2Timestamp.set h (getTimestampFromTSC unix))
          (List.take n (c.blockHashSet ++ [h]))) x ≠ 0
        have hval : (List.foldl GoMap.delete
            (c.blockHash2Timestamp.set h (getTimestampFromTSC unix))
            (List.take n (c.blockHashSet ++ [h]))) x =
            (c.blockHash2Timestamp.set h (getTimestampFromTSC unix)) x := by
          rw [GoMap.foldl_delete_apply, if_neg hxt]
        unfold GoMap.getU64
        rw [hval]
        exact hst1 x (List.mem_of_mem_drop hxd)

/-- After any sequence of `/blockhash` requests from the empty cache, none of them
at clock reading 0, every entry of the window is recorded with a non-zero
timestamp. -/
theorem runSubmissions_window_stamped (P : Platform) (subs : List Submission)
    (hclock : ∀ s, s ∈ subs → getTimestampFromTSC s.unix ≠ 0) :
    ∀ x, x ∈ (runSubmissions P subs Cache.empty).blockHashSet →
      (runSubmissions P subs Cache.empty).blockHash2Timestamp.getU64 x ≠ 0 := by
  have gen : ∀ (l : List Submission) (c : Cache),
      (∀ s, s ∈ l → getTimestampFromTSC s.unix ≠ 0) →
      c.blockHashSet.length ≤ 1500000 → c.blockHashSet.Nodup →
      (∀ x, x ∈ c.blockHashSet → c.blockHash2Timestamp.getU64 x ≠ 0) →
      ∀ x, x ∈ (runSubmissions P l c).blockHashSet →
        (runSubmissions P l c).blockHash2Timestamp.getU64 x ≠ 0 := by
    intro l
    induction l with
    | nil => intro c _ _ _ hst; exact hst
    | cons s l ih =>
      intro c hcl hlen hnd hst
      have hstep := blockhashHandler_window_stamped P s.keys s.unix s.b c
        (hcl s (List.mem_cons_self _ _)) hlen hnd hst
      unfold runSubmissions
      rw [List.foldl_cons]
      exact ih _ (fun z hz => hcl z (List.mem_cons_of_mem _ hz))
        (blockhashHandler_length_le P s.keys s.unix s.b c hlen) hstep.1 hstep.2
  exact gen subs Cache.empty hclock (by simp [Cache.empty]) (by simp [Cache.empty])
    (fun x hx => by simp [Cache.empty] at hx)

/-! ## The eviction pass after 1,500,001 distinct submissions -/

theorem runSubmissions_snoc (P : Platform) (subs : List Submission) (s : Submission)
    (c : Cache) :
    runSubmissions P (subs ++ [s]) c =
      (blockhashHandler P s.keys s.unix s.b (runSubmissions P subs c)).1 := by
  unfold runSubmissions
  rw [List.foldl_append]
  rfl

theorem hexDecodeString_hashOf (i : Nat) : hexDecodeString (hashOf i) = some (bytesOf i) := by
  apply hexDecodeString_hexEncodeToString
  intro b hb
  simp only [bytesOf, List.mem_cons, List.mem_singleton, List.not_mem_nil, or_false] at hb
  rcases hb with h | h | h <;> omega

theorem hashOf_injective (i j : Nat) (hi : i < 16777216) (hj : j < 16777216)
    (h : hashOf i = hashOf j) : i = j := by
  have hd := congrArg hexDecodeString h
  rw [hexDecodeString_hashOf, hexDecodeString_hashOf] at hd
  simp only [bytesOf, Option.some.injEq, List.cons.injEq, and_true] at hd
  omega

theorem hashOf_not_mem_earlier (n : Nat) (hn : n < 16777216) :
    hashOf n ∉ (List.range n).map hashOf := by
  intro hm
  rw [List.mem_map] at hm
  obtain ⟨i, hi, heq⟩ := hm
  rw [List.mem_range] at hi
  have := hashOf_injective i n (by omega) hn heq
  omega

theorem distinctSubmissions_succ (n : Nat) :
    distinctSubmissions (n + 1) = distinctSubmissions n ++ [distinctSubmission n] := by
  unfold distinctSubmissions
  rw [List.range_succ, List.map_append]
  rfl

/-- One of the distinct requests, on a cache that has no record of its hash, writes
the record, appends the hash and runs the eviction pass. -/
theorem distinctSubmission_step (n : Nat) (c : Cache)
    (h0 : c.blockHash2Timestamp.getU64 (hashOf n) = 0) :
    (blockhashHandler testPlatform (distinctSubmission n).keys (distinctSubmission n).unix
      (distinctSubmission n).b c).1 =
      clearOldBlockHash (c.withRecord (hashOf n) (5 :: bytesOf n) (bytesOf n ++ [5]) 100) := by
  have hstep := blockhashHandler_accept testPlatform testKeys 100 (hashOf n) [] c (bytesOf n) 5
    (5 :: bytesOf n) (bytesOf n ++ [5]) (by decide) h0 (hexDecodeString_hashOf n) rfl rfl
  have hclock : getTimestampFromTSC 100 = 100 := by decide
  rw [hclock] at hstep
  show (blockhashHandler testPlatform testKeys 100 [hashOf n] c).1 = _
  rw [hstep]
  rfl

/-- Up to 1,500,000 distinct requests no eviction pass changes anything: the window
lists the hashes in order and every key of the timestamp map is in it. -/
theorem distinct_run (n : Nat) (hn : n ≤ 1500000) :
    (runSubmissions testPlatform (distinctSubmissions n) Cache.empty).blockHashSet =
      (List.range n).map hashOf ∧
    ∀ k, ((runSubmissions testPlatform (distinctSubmissions n)
        Cache.empty).blockHash2Timestamp k).isSome = true →
      k ∈ (runSubmissions testPlatform (distinctSubmissions n) Cache.empty).blockHashSet := by
  induction n with
  | zero =>
    refine ⟨rfl, fun k hk => ?_⟩
    simp [distinctSubmissions, runSubmissions, Cache.empty, GoMap.empty] at hk
  | succ n ih =>
    obtain ⟨hw, hkeys⟩ := ih (by omega)
    have hnew : hashOf n ∉
        (runSubmissions testPlatform (distinctSubmissions n) Cache.empty).blockHashSet := by
      rw [hw]
      exact hashOf_not_mem_earlier n (by omega)
    have h0 : (runSubmissions testPlatform (distinctSubmissions n)
        Cache.empty).blockHash2Timestamp.getU64 (hashOf n) = 0 := by
      cases hts : (runSubmissions testPlatform (distinctSubmissions n)
          Cache.empty).blockHash2Timestamp (hashOf n) with
      | none => exact GoMap.getU64_eq_zero_of_none _ _ hts
      | some t => exact absurd (hkeys (hashOf n) (by rw [hts]; rfl)) hnew
    rw [distinctSubmissions_succ, runSubmissions_snoc, distinctSubmission_step n _ h0]
    generalize runSubmissions testPlatform (distinctSubmissions n) Cache.empty = c
      at hw hkeys hnew h0
    have hlen : (c.withRecord (hashOf n) (5 :: bytesOf n) (bytesOf n ++ [5])
        100).blockHashSet.length ≤ 1500000 := by
      show (c.blockHashSet ++ [hashOf n]).length ≤ 1500000
      rw [hw, List.length_append, List.length_map, List.length_range, List.length_singleton]
      omega
    rw [clearOldBlockHash_of_le _ hlen]
    constructor
    · show c.blockHashSet ++ [hashOf n] = (List.range (n + 1)).map hashOf
      rw [hw, List.range_succ, List.map_append]
      rfl
    · intro k hk
      show k ∈ c.blockHashSet ++ [hashOf n]
      by_cases hkn : k = hashOf n
      · rw [hkn]; simp
      · have hk2 : (c.blockHash2Timestamp k).isSome = true := by
          have hk1 : ((c.blockHash2Timestamp.set (hashOf n) 100) k).isSome = true := hk
          simpa [GoMap.set, hkn] using hk1
        exact List.mem_append_left _ (hkeys k hk2)

theorem foldl_delete_set_of_not_mem {V : Type} (l : List String) (m : GoMap V) (x : String)
    (v : V) (hx : x ∉ l) : (l.foldl GoMap.delete (m.set x v)) x = some v := by
  rw [GoMap.foldl_delete_apply, if_neg hx]
  simp [GoMap.set]

/-- The eviction pass on a window of 1,500,001 entries whose last entry `x` occurs
only there: 500,001 slots are left, `x` is not in them, and the record of `x`
stays in the three maps. -/
theorem eviction_drops_newest (c : Cache) (x : String) (beta pi : Bytes) (t : Nat)
    (hlen : c.blockHashSet.length = 1500000) (hx : x ∉ c.blockHashSet) :
    (clearOldBlockHash (c.withRecord x beta pi t)).blockHashSet.length = 500001 ∧
    x ∉ (clearOldBlockHash (c.withRecord x beta pi t)).blockHashSet ∧
    (clearOldBlockHash (c.withRecord x beta pi t)).blockHash2Timestamp x = some t ∧
    (clearOldBlockHash (c.withRecord x beta pi t)).blockHash2PI x = some pi ∧
    (clearOldBlockHash (c.withRecord x beta pi t)).blockHash2Beta x = some beta := by
  have hlen1 : (c.withRecord x beta pi t).blockHashSet.length = 1500001 := by
    show (c.blockHashSet ++ [x]).length = 1500001
    rw [List.length_append, List.length_singleton, hlen]
  have hgt : 1500000 < (c.withRecord x beta pi t).blockHashSet.length := by omega
  have hl := clearOldBlockHash_length _ hgt
  obtain ⟨n, hn, hev⟩ := clearOldBlockHash_evicts _ hgt
  have hn1 : n = 500001 := by omega
  have hwr : (c.withRecord x beta pi t).blockHashSet = c.blockHashSet ++ [x] := rfl
  have htake : List.take n (c.blockHashSet ++ [x]) = List.take n c.blockHashSet :=
    List.take_append_of_le_length (by omega)
  have hnot : x ∉ List.take n (c.blockHashSet ++ [x]) := by
    rw [htake]
    exact fun hm => hx (List.mem_of_mem_take hm)
  refine ⟨by omega, ?_, ?_, ?_, ?_⟩
  · rw [hev, hwr]
    show x ∉ (List.drop n (c.blockHashSet ++ [x])).take n ++
      List.replicate (n - (List.drop n (c.blockHashSet ++ [x])).length) ""
    have hdrop : List.drop n (c.blockHashSet ++ [x]) = List.drop n c.blockHashSet ++ [x] :=
      List.drop_append_of_le_length (by omega)
    have hdl : (List.drop n c.blockHashSet).length = 999999 := by
      rw [List.length_drop]; omega
    have hpad : n - (List.drop n c.blockHashSet ++ [x]).length = 0 := by
      rw [List.length_append, List.length_singleton, hdl]; omega
    rw [hdrop, hpad, List.replicate_zero, List.append_nil,
      List.take_append_of_le_length (by omega)]
    exact fun hm => hx (List.mem_of_mem_drop (List.mem_of_mem_take hm))
  · rw [hev]
    exact foldl_delete_set_of_not_mem _ _ x t hnot
  · rw [hev]
    exact foldl_delete_set_of_not_mem _ _ x pi hnot
  · rw [hev]
    exact foldl_delete_set_of_not_mem _ _ x beta hnot

theorem distinct_run_before_eviction :
    (runSubmissions testPlatform (distinctSubmissions 1500000) Cache.empty).blockHashSet.length
      = 1500000 ∧
    hashOf 1500000 ∉
      (runSubmissions testPlatform (distinctSubmissions 1500000) Cache.empty).blockHashSet ∧
    (runSubmissions testPlatform (distinctSubmissions 1500000)
      Cache.empty).blockHash2Timestamp.getU64 (hashOf 1500000) = 0 := by
  obtain ⟨hw, hkeys⟩ := distinct_run 1500000 (le_refl _)
  have hnew : hashOf 1500000 ∉
      (runSubmissions testPlatform (distinctSubmissions 1500000) Cache.empty).blockHashSet := by
    rw [hw]
    exact hashOf_not_mem_earlier 1500000 (by omega)
  refine ⟨?_, hnew, ?_⟩
  · rw [hw, List.length_map, List.length_range]
  · cases hts : (runSubmissions testPlatform (distinctSubmissions 1500000)
        Cache.empty).blockHash2Timestamp (hashOf 1500000) with
    | none => exact GoMap.getU64_eq_zero_of_none _ _ hts
    | some t => exact absurd (hkeys (hashOf 1500000) (by rw [hts]; rfl)) hnew

/-- C4. Eviction result, on the code: at the eviction pass of the 1,500,001st
distinct submission the window has 1,500,001 entries and ends with the hash just
submitted; the pass leaves 500,001 entries, not 1,000,000, and the hash just
submitted, the most recent one, is not among them. -/
theorem clearOldBlockHash_leaves_short_window :
    cacheBeforeEviction.blockHashSet.length = 1500001 ∧
    cacheBeforeEviction.blockHashSet.getLast? = some (hashOf 1500000) ∧
    (clearOldBlockHash cacheBeforeEviction).blockHashSet.length = 500001 ∧
    hashOf 1500000 ∉ (clearOldBlockHash cacheBeforeEviction).blockHashSet := by
  obtain ⟨hlen, hnew, _⟩ := distinct_run_before_eviction
  have hev := eviction_drops_newest _ (hashOf 1500000) (5 :: bytesOf 1500000)
    (bytesOf 1500000 ++ [5]) 100 hlen hnew
  have hwin : cacheBeforeEviction.blockHashSet =
      (runSubmissions testPlatform (distinctSubmissions 1500000) Cache.empty).blockHashSet ++
        [hashOf 1500000] := rfl
  refine ⟨?_, ?_, hev.1, hev.2.1⟩
  · rw [hwin, List.length_append, List.length_singleton, hlen]
  · rw [hwin]
    generalize (runSubmissions testPlatform (distinctSubmissions 1500000)
      Cache.empty).blockHashSet = w
    generalize hashOf 1500000 = x
    simp

/-- C10. Record/window consistency, on the code: after 1,500,001 submissions of
distinct hashes at clock reading 100 the hash submitted last has its record in the
three maps and is not an entry of the window, which holds 500,001 entries. -/
theorem record_outside_window_after_eviction :
    (runSubmissions testPlatform (distinctSubmissions 1500001)
      Cache.empty).blockHash2Timestamp (hashOf 1500000) = some 100 ∧
    (runSubmissions testPlatform (distinctSubmissions 1500001)
      Cache.empty).blockHash2PI (hashOf 1500000) = some (bytesOf 1500000 ++ [5]) ∧
    (runSubmissions testPlatform (distinctSubmissions 1500001)
      Cache.empty).blockHash2Beta (hashOf 1500000) = some (5 :: bytesOf 1500000) ∧
    hashOf 1500000 ∉
      (runSubmissions testPlatform (distinctSubmissions 1500001) Cache.empty).blockHashSet ∧
    (runSubmissions testPlatform (distinctSubmissions 1500001)
      Cache.empty).blockHashSet.length = 500001 := by
  obtain ⟨hlen, hnew, h0⟩ := distinct_run_before_eviction
  have hev := eviction_drops_newest _ (hashOf 1500000) (5 :: bytesOf 1500000)
    (bytesOf 1500000 ++ [5]) 100 hlen hnew
  have hrun : runSubmissions testPlatform (distinctSubmissions 1500001) Cache.empty =
      clearOldBlockHash
        ((runSubmissions testPlatform (distinctSubmissions 1500000) Cache.empty).withRecord
          (hashOf 1500000) (5 :: bytesOf 1500000) (bytesOf 1500000 ++ [5]) 100) := by
    have hs : distinctSubmissions 1500001 =
        distinctSubmissions 1500000 ++ [distinctSubmission 1500000] :=
      distinctSubmissions_succ 1500000
    rw [hs, runSubmissions_snoc, distinctSubmission_step 1500000 _ h0]
  rw [hrun]
  exact ⟨hev.2.2.1, hev.2.2.2.1, hev.2.2.2.2, hev.2.1, hev.1⟩

end SgxRand
